import Mathlib

/-!
Verification of the pipecat consumer/publisher (src/pipecat.go) against its
natural-language specification.

The Go source is embedded shallowly:

* `Delivery` models `amqp.Delivery` restricted to the fields the program
  reads: the broker-assigned delivery tag and the message body.  Go's zero
  value for the struct is `zeroDelivery` (tag `0`, empty body); `fmt.Sprintf
  ("%s", msg.Body)` renders a `nil` body as the empty string.
* `initialUnackedMessages` models line 95, `make([]amqp.Delivery, 100)`,
  which allocates a slice of length 100 filled with zero values.
* `processAckLine` models the body of the `for scanner.Scan()` loop of
  `ackMessages` (lines 113–125): scan the slice in index order, on the first
  entry whose rendered body equals the acknowledged line call
  `msg.Ack(false)`, splice the entry out, and `break`; if nothing matches
  the slice is left as it was and no acknowledgment is issued.
* `consumeLoop` models the `select` loop of `consumeMessages`
  (lines 134–153) over an explicit list of iteration outcomes
  (`some d` = the delivery channel won the race, `none` = the
  `time.After(timeout)` case fired first).
* `publishRun` / `consumeRun` model the whole `publish` / `consume`
  commands as event traces, including `failOnError` (lines 15–20):
  `log.Fatalf` prints a diagnostic and calls `os.Exit(1)`, which does NOT
  run deferred functions, so the deferred `conn.Close()` /
  `channel.Close()` (lines 52–53 and 91–92) only run on normal returns.
-/

namespace Pipecat

/-- A broker delivery, restricted to the fields `pipecat.go` reads:
the broker-assigned delivery tag and the message body (rendered as the
string of its bytes, as `fmt.Sprintf "%s"` does). -/
structure Delivery where
  deliveryTag : Nat
  body : String
  deriving DecidableEq, Repr

/-- Go's zero value of `amqp.Delivery`: tag 0, `nil` body, which renders
as the empty string. -/
def zeroDelivery : Delivery := ⟨0, ""⟩

/-- Line 95: `unackedMessages := make([]amqp.Delivery, 100)` — a slice of
LENGTH 100 (not capacity 100), i.e. one hundred zero-valued deliveries. -/
def initialUnackedMessages : List Delivery := List.replicate 100 zeroDelivery

/-- One pass of the acknowledgment loop of `ackMessages` (lines 113–125)
for a single input line: scan `unackedMessages` in index (= insertion)
order; at the first entry whose body equals the line, acknowledge it with
`msg.Ack(false)` (the `Bool` in the result is the `multiple` argument,
always `false`), splice it out and `break`.  Returns the updated slice and
the acknowledgment that was issued, if any. -/
def processAckLine : List Delivery → String → List Delivery × Option (Delivery × Bool)
  | [], _ => ([], none)
  | msg :: rest, line =>
    if msg.body = line then
      (rest, some (msg, false))
    else
      let p := processAckLine rest line
      (msg :: p.1, p.2)

/-- The same scan with the return value of the broker call `msg.Ack(false)`
made explicit.  The Go code discards that value (line 118 uses the result
of `msg.Ack(false)` for nothing), so the result is computed and dropped. -/
def processAckLineChecked (ackResult : Delivery → Bool → Except String Unit) :
    List Delivery → String → List Delivery × Option (Delivery × Bool)
  | [], _ => ([], none)
  | msg :: rest, line =>
    if msg.body = line then
      let _ := ackResult msg false
      (rest, some (msg, false))
    else
      let p := processAckLineChecked ackResult rest line
      (msg :: p.1, p.2)

/-- The whole acknowledgment-listener loop over a list of input lines:
fold `processAckLine` over the lines, collecting the acknowledgments
issued (in order). -/
def ackListener : List Delivery → List String → List Delivery × List (Delivery × Bool)
  | ledger, [] => (ledger, [])
  | ledger, line :: rest =>
    let p := processAckLine ledger line
    let r := ackListener p.1 rest
    (r.1, p.2.toList ++ r.2)

/-! ### Basic lemmas about the acknowledgment scan -/

theorem processAckLine_nil (line : String) :
    processAckLine [] line = ([], none) := rfl

theorem processAckLine_cons_match (msg : Delivery) (rest : List Delivery)
    (line : String) (h : msg.body = line) :
    processAckLine (msg :: rest) line = (rest, some (msg, false)) := by
  simp [processAckLine, h]

theorem processAckLine_cons_nomatch (msg : Delivery) (rest : List Delivery)
    (line : String) (h : msg.body ≠ line) :
    processAckLine (msg :: rest) line =
      (msg :: (processAckLine rest line).1, (processAckLine rest line).2) := by
  simp [processAckLine, h]

/-- A prefix none of whose bodies match the line is scanned past unchanged. -/
theorem processAckLine_append_skip (pre l : List Delivery) (line : String)
    (h : ∀ d ∈ pre, d.body ≠ line) :
    processAckLine (pre ++ l) line =
      (pre ++ (processAckLine l line).1, (processAckLine l line).2) := by
  induction pre with
  | nil => simp
  | cons msg rest ih =>
    have hmsg : msg.body ≠ line := h msg (by simp)
    have hrest : ∀ d ∈ rest, d.body ≠ line := fun d hd => h d (by simp [hd])
    simp only [List.cons_append,
      processAckLine_cons_nomatch msg (rest ++ l) line hmsg, ih hrest]

/-- If no entry's body matches the line, the scan leaves the ledger
unchanged and issues no acknowledgment. -/
theorem processAckLine_no_match (ledger : List Delivery) (line : String)
    (h : ∀ d ∈ ledger, d.body ≠ line) :
    processAckLine ledger line = (ledger, none) := by
  have := processAckLine_append_skip ledger [] line h
  simpa [processAckLine] using this

/-- Every entry of the ledger after a scan was already there before. -/
theorem mem_processAckLine (ledger : List Delivery) (line : String)
    (d : Delivery) (hd : d ∈ (processAckLine ledger line).1) : d ∈ ledger := by
  induction ledger with
  | nil => simp [processAckLine] at hd
  | cons msg rest ih =>
    by_cases h : msg.body = line
    · rw [processAckLine_cons_match msg rest line h] at hd
      exact List.mem_cons_of_mem msg hd
    · rw [processAckLine_cons_nomatch msg rest line h] at hd
      rcases List.mem_cons.mp hd with h1 | h1
      · exact h1 ▸ List.mem_cons_self msg rest
      · exact List.mem_cons_of_mem msg (ih h1)

/-! ### Claim theorems: the acknowledgment scan -/

/-- **C1.** For every Ledger state and every acknowledgment line, the
Acknowledgment Listener scans the Ledger in insertion order and
acknowledges (with a single, non-multiple acknowledgment: `Ack(false)`)
and removes exactly the first entry whose body equals the line
byte-for-byte; in particular, given two pending deliveries with identical
bodies inserted in order D1 then D2 and one acknowledgment line matching
that body, D1 is acknowledged and removed while D2 remains pending. -/
theorem ackLine_removes_first_match :
    (∀ (pre : List Delivery) (d1 : Delivery) (post : List Delivery) (line : String),
        (∀ d ∈ pre, d.body ≠ line) → d1.body = line →
        processAckLine (pre ++ d1 :: post) line = (pre ++ post, some (d1, false))) ∧
    (∀ (d1 d2 : Delivery) (line : String), d1.body = line → d2.body = line →
        processAckLine [d1, d2] line = ([d2], some (d1, false))) := by
  constructor
  · intro pre d1 post line hpre hd1
    rw [processAckLine_append_skip pre (d1 :: post) line hpre,
      processAckLine_cons_match d1 post line hd1]
  · intro d1 d2 line h1 h2
    exact processAckLine_cons_match d1 [d2] line h1

/-- Witness for C1: the duplicate-body scenario at a concrete input.
Deliveries 1 and 2 both carry body `"dup"`; one acknowledgment line
`"dup"` acknowledges and removes delivery 1 and keeps delivery 2. -/
theorem ackLine_removes_first_match_witness :
    processAckLine [⟨1, "dup"⟩, ⟨2, "dup"⟩] "dup" = ([⟨2, "dup"⟩], some (⟨1, "dup"⟩, false)) :=
  ackLine_removes_first_match.2 ⟨1, "dup"⟩ ⟨2, "dup"⟩ "dup" rfl rfl

/-- **C2.** An acknowledgment line that matches no pending delivery's body
leaves the Ledger unchanged, issues no acknowledgment and no error, and
the listener silently moves on to the next line.  This holds for every
line — the empty line included — whenever no entry with an equal body
exists. -/
theorem ackLine_unmatched_noop :
    ∀ (ledger : List Delivery) (line : String),
      (∀ d ∈ ledger, d.body ≠ line) →
      processAckLine ledger line = (ledger, none) ∧
      ∀ rest : List String, ackListener ledger (line :: rest) = ackListener ledger rest := by
  intro ledger line h
  have hno := processAckLine_no_match ledger line h
  refine ⟨hno, fun rest => ?_⟩
  simp [ackListener, hno]

/-- Witness for C2: neither the line `"c"` nor the empty line matches a
ledger holding bodies `"a"` and `"b"`; both are discarded without change. -/
theorem ackLine_unmatched_noop_witness :
    (processAckLine [⟨1, "a"⟩, ⟨2, "b"⟩] "c" = ([⟨1, "a"⟩, ⟨2, "b"⟩], none) ∧
      ∀ rest : List String,
        ackListener [⟨1, "a"⟩, ⟨2, "b"⟩] ("c" :: rest) = ackListener [⟨1, "a"⟩, ⟨2, "b"⟩] rest) ∧
    processAckLine [⟨1, "a"⟩, ⟨2, "b"⟩] "" = ([⟨1, "a"⟩, ⟨2, "b"⟩], none) :=
  ⟨ackLine_unmatched_noop [⟨1, "a"⟩, ⟨2, "b"⟩] "c" (by decide),
   (ackLine_unmatched_noop [⟨1, "a"⟩, ⟨2, "b"⟩] "" (by decide)).1⟩

/-! ### Serialized Ledger operations

Every access to `unackedMessages` happens under `mutex` (lines 114/125 and
140/142), so a whole execution is a sequence of critical sections, each one
either an insert from the Consume Loop or one scan-and-maybe-remove from
the Acknowledgment Listener. -/

/-- One serialized critical section on the Ledger: an insert from the
Consume Loop (line 141, `unackedMessages = append(unackedMessages, msg)`)
or the Acknowledgment Listener's scan for one input line. -/
inductive LedgerOp where
  | insert (d : Delivery)
  | ackLine (line : String)
  deriving DecidableEq, Repr

/-- Effect of one critical section on the Ledger. -/
def applyOp (st : List Delivery) : LedgerOp → List Delivery
  | .insert d => st ++ [d]
  | .ackLine line => (processAckLine st line).1

/-- The Ledger after a serialized sequence of critical sections starting
from `init`. -/
def runOps (init : List Delivery) (ops : List LedgerOp) : List Delivery :=
  ops.foldl applyOp init

theorem runOps_cons (init : List Delivery) (op : LedgerOp) (ops : List LedgerOp) :
    runOps init (op :: ops) = runOps (applyOp init op) ops := rfl

/-- While zero-valued initial entries remain at the front, an empty
acknowledgment line matches and removes the first of them and leaves the
suffix of genuine deliveries untouched. -/
theorem processAckLine_replicate_zero (k : Nat) (rest : List Delivery) (hk : 0 < k) :
    processAckLine (List.replicate k zeroDelivery ++ rest) "" =
      (List.replicate (k - 1) zeroDelivery ++ rest, some (zeroDelivery, false)) := by
  obtain ⟨k', rfl⟩ : ∃ k', k = k' + 1 := ⟨k - 1, (Nat.succ_pred_eq_of_pos hk).symm⟩
  rw [List.replicate_succ, List.cons_append,
    processAckLine_cons_match zeroDelivery _ "" rfl]
  simp

/-- A non-empty acknowledgment line is scanned past all zero-valued
initial entries (their bodies render as the empty string). -/
theorem processAckLine_replicate_zero_skip (k : Nat) (rest : List Delivery)
    (line : String) (hline : line ≠ "") :
    processAckLine (List.replicate k zeroDelivery ++ rest) line =
      (List.replicate k zeroDelivery ++ (processAckLine rest line).1,
       (processAckLine rest line).2) := by
  apply processAckLine_append_skip
  intro d hd
  rw [List.eq_of_mem_replicate hd]
  exact fun h => hline h.symm

/-- Shape invariant of every reachable Ledger state: some `k ≤ 100` of
the zero-valued initial entries at the front, followed by entries that
were either already in the starting suffix or explicitly inserted. -/
theorem runOps_shape (ops : List LedgerOp) :
    ∀ (k : Nat) (rest : List Delivery), k ≤ 100 →
      ∃ (k' : Nat) (rest' : List Delivery), k' ≤ 100 ∧
        runOps (List.replicate k zeroDelivery ++ rest) ops =
          List.replicate k' zeroDelivery ++ rest' ∧
        ∀ d ∈ rest', d ∈ rest ∨ LedgerOp.insert d ∈ ops := by
  induction ops with
  | nil =>
    intro k rest hk
    exact ⟨k, rest, hk, rfl, fun d hd => Or.inl hd⟩
  | cons op ops ih =>
    intro k rest hk
    cases op with
    | insert d0 =>
      have h1 : applyOp (List.replicate k zeroDelivery ++ rest) (.insert d0) =
          List.replicate k zeroDelivery ++ (rest ++ [d0]) := by
        simp [applyOp]
      obtain ⟨k', rest', hk', heq, hmem⟩ := ih k (rest ++ [d0]) hk
      refine ⟨k', rest', hk', ?_, ?_⟩
      · rw [runOps_cons, h1]; exact heq
      · intro d hd
        rcases hmem d hd with h | h
        · rcases List.mem_append.mp h with h2 | h2
          · exact Or.inl h2
          · simp only [List.mem_singleton] at h2
            subst h2
            exact Or.inr (by simp)
        · exact Or.inr (List.mem_cons_of_mem _ h)
    | ackLine line =>
      by_cases hline : line = ""
      · subst hline
        cases k with
        | zero =>
          have h1 : applyOp (List.replicate 0 zeroDelivery ++ rest) (.ackLine "") =
              List.replicate 0 zeroDelivery ++ (processAckLine rest "").1 := by
            simp [applyOp]
          obtain ⟨k', rest', hk', heq, hmem⟩ :=
            ih 0 (processAckLine rest "").1 (by omega)
          refine ⟨k', rest', hk', ?_, ?_⟩
          · rw [runOps_cons, h1]; exact heq
          · intro d hd
            rcases hmem d hd with h | h
            · exact Or.inl (mem_processAckLine rest "" d h)
            · exact Or.inr (List.mem_cons_of_mem _ h)
        | succ k0 =>
          have h1 : applyOp (List.replicate (k0 + 1) zeroDelivery ++ rest) (.ackLine "") =
              List.replicate k0 zeroDelivery ++ rest := by
            simp [applyOp, processAckLine_replicate_zero (k0 + 1) rest (Nat.succ_pos k0)]
          obtain ⟨k', rest', hk', heq, hmem⟩ := ih k0 rest (by omega)
          refine ⟨k', rest', hk', ?_, ?_⟩
          · rw [runOps_cons, h1]; exact heq
          · intro d hd
            rcases hmem d hd with h | h
            · exact Or.inl h
            · exact Or.inr (List.mem_cons_of_mem _ h)
      · have h1 : applyOp (List.replicate k zeroDelivery ++ rest) (.ackLine line) =
            List.replicate k zeroDelivery ++ (processAckLine rest line).1 := by
          simp [applyOp, processAckLine_replicate_zero_skip k rest line hline]
        obtain ⟨k', rest', hk', heq, hmem⟩ := ih k (processAckLine rest line).1 hk
        refine ⟨k', rest', hk', ?_, ?_⟩
        · rw [runOps_cons, h1]; exact heq
        · intro d hd
          rcases hmem d hd with h | h
          · exact Or.inl (mem_processAckLine rest line d h)
          · exact Or.inr (List.mem_cons_of_mem _ h)

/-! ### Claim theorems: the Ledger as initialized by the code -/

/-- **C3** (evaluation of the code at the failing input).  The claim says
the final Ledger content equals the inserted deliveries minus the matched
acknowledgments, and in particular that at consumer startup — no inserts,
no acknowledgment lines — the Ledger contains exactly the inserted
deliveries, i.e. nothing.  The code's Ledger, `make([]amqp.Delivery, 100)`
(line 95), already holds 100 zero-valued entries at startup. -/
theorem startup_ledger_not_inserted :
    runOps initialUnackedMessages [] = List.replicate 100 zeroDelivery ∧
    (runOps initialUnackedMessages []).length = 100 ∧
    runOps initialUnackedMessages [] ≠ ([] : List Delivery) := by
  have h0 : runOps initialUnackedMessages [] = List.replicate 100 zeroDelivery := rfl
  refine ⟨h0, ?_, ?_⟩
  · rw [h0, List.length_replicate]
  · rw [h0]
    intro h
    have hlen := congrArg List.length h
    rw [List.length_replicate, List.length_nil] at hlen
    exact absurd hlen (by omega)

/-- **C4** (evaluation of the code at the failing input).  The claim says
each Delivery appears in the Ledger at most once in every reachable state.
In the very first reachable state the zero-valued Delivery appears 100
times, because line 95 allocates the slice with length 100. -/
theorem initial_ledger_duplicates :
    initialUnackedMessages.count zeroDelivery = 100 ∧
    ¬ (∀ d : Delivery, initialUnackedMessages.count d ≤ 1) := by
  have h100 : initialUnackedMessages.count zeroDelivery = 100 := by
    show (List.replicate 100 zeroDelivery).count zeroDelivery = 100
    rw [List.count_replicate_self]
  refine ⟨h100, fun h => ?_⟩
  have := h zeroDelivery
  omega

/-- **C10.** When an acknowledgment line matches a pending entry, the
entry is removed from the Ledger unconditionally: the value returned by
the broker call `msg.Ack(false)` is discarded (line 118), so the scan's
result — updated Ledger and issued acknowledgment — is the same for every
possible broker outcome, and a failed broker acknowledgment is
indistinguishable, at this interface, from a successful one. -/
theorem ack_error_discarded :
    ∀ (ackResult : Delivery → Bool → Except String Unit)
      (ledger : List Delivery) (line : String),
      processAckLineChecked ackResult ledger line = processAckLine ledger line ∧
      processAckLineChecked ackResult ledger line =
        processAckLineChecked (fun _ _ => Except.ok ()) ledger line := by
  have key : ∀ (f : Delivery → Bool → Except String Unit)
      (ledger : List Delivery) (line : String),
      processAckLineChecked f ledger line = processAckLine ledger line := by
    intro f ledger line
    induction ledger with
    | nil => rfl
    | cons msg rest ih =>
      by_cases h : msg.body = line <;>
        simp [processAckLineChecked, processAckLine, h, ih]
  intro f ledger line
  exact ⟨key f ledger line, (key f ledger line).trans (key _ ledger line).symm⟩

/-- **C9.** At consumer startup with auto-acknowledge disabled, the Ledger
already holds 100 zero-valued entries whose bodies render as the empty
string; in every reachable state the remaining `k` initial entries sit in
front of the genuinely inserted deliveries, and while `k > 0` an
acknowledgment line equal to the empty string acknowledges and removes one
of these initial entries (the acknowledged delivery is the zero value),
leaving every inserted delivery — empty-bodied ones included — pending. -/
theorem initial_ledger_empty_body_acks :
    (initialUnackedMessages = List.replicate 100 zeroDelivery ∧
      initialUnackedMessages.length = 100 ∧
      ∀ d ∈ initialUnackedMessages, d.body = "") ∧
    ∀ ops : List LedgerOp,
      ∃ (k : Nat) (rest : List Delivery), k ≤ 100 ∧
        runOps initialUnackedMessages ops = List.replicate k zeroDelivery ++ rest ∧
        (∀ d ∈ rest, LedgerOp.insert d ∈ ops) ∧
        (0 < k →
          processAckLine (runOps initialUnackedMessages ops) "" =
            (List.replicate (k - 1) zeroDelivery ++ rest, some (zeroDelivery, false))) := by
  constructor
  · refine ⟨rfl, by rw [show initialUnackedMessages.length = (List.replicate 100 zeroDelivery).length from rfl, List.length_replicate], ?_⟩
    intro d hd
    rw [List.eq_of_mem_replicate hd]
    rfl
  · intro ops
    have hstart : List.replicate 100 zeroDelivery ++ ([] : List Delivery) =
        initialUnackedMessages := by
      simp [initialUnackedMessages]
    obtain ⟨k, rest, hk, heq, hmem⟩ := runOps_shape ops 100 [] (le_refl 100)
    rw [hstart] at heq
    refine ⟨k, rest, hk, heq, ?_, ?_⟩
    · intro d hd
      rcases hmem d hd with h | h
      · exact absurd h (List.not_mem_nil d)
      · exact h
    · intro hkpos
      rw [heq]
      exact processAckLine_replicate_zero k rest hkpos

/-- Witness for C9: at startup (no operations) the zero-valued delivery is
in the Ledger with empty body, and the invariant instantiates. -/
theorem initial_ledger_empty_body_acks_witness :
    (⟨0, ""⟩ : Delivery).body = "" ∧
    (∃ (k : Nat) (rest : List Delivery), k ≤ 100 ∧
      runOps initialUnackedMessages [] = List.replicate k zeroDelivery ++ rest ∧
      (∀ d ∈ rest, LedgerOp.insert d ∈ ([] : List LedgerOp)) ∧
      (0 < k →
        processAckLine (runOps initialUnackedMessages []) "" =
          (List.replicate (k - 1) zeroDelivery ++ rest, some (zeroDelivery, false)))) :=
  ⟨initial_ledger_empty_body_acks.1.2.2 ⟨0, ""⟩ (by decide),
   initial_ledger_empty_body_acks.2 []⟩

/-! ### Event-trace model of the `publish` and `consume` commands

`failOnError` (lines 15–20) calls `log.Fatalf`, which prints the
diagnostic and calls `os.Exit(1)`; `os.Exit` does not run deferred
functions, so the deferred `conn.Close()` / `channel.Close()`
(lines 52–53 and 91–92) run only when the surrounding function returns
normally, in LIFO order (channel first, then connection). -/

/-- Observable events of one process run. -/
inductive Event where
  | connOpened
  | chanOpened
  | queueDeclared
  | published (line : String)
  | echoed (line : String)
  | fatalLogged (msg : String)
  | chanClosed
  | connClosed
  | exited (code : Nat)
  deriving DecidableEq, Repr

/-- The external collaborators: the outcome of each broker-library call
and of reading standard input through to end-of-stream
(`scanner.Err()` is `none` on a plain EOF). -/
structure Broker where
  dial : Except String Unit
  openChannel : Except String Unit
  declareQueue : Except String Unit
  pub : String → Except String Unit
  consumeReg : Except String Unit
  stdinErr : Option String

/-- `failOnError` on a non-nil error: `log.Fatalf("%s: %s", msg, err)`
prints the diagnostic and exits with code 1. -/
def fatalTrace (msg err : String) : List Event :=
  [Event.fatalLogged (msg ++ ": " ++ err), Event.exited 1]

/-- Events of a successful `prepare` (lines 22–42). -/
def openTrace (createQueue : Bool) : List Event :=
  if createQueue then [Event.connOpened, Event.chanOpened, Event.queueDeclared]
  else [Event.connOpened, Event.chanOpened]

/-- `prepare` (lines 22–42): dial, open a channel, optionally declare the
queue, each step guarded by `failOnError`.  `Except.error` carries the
trace of a run that died inside `prepare`. -/
def prepareT (b : Broker) (createQueue : Bool) : Except (List Event) (List Event) :=
  match b.dial with
  | .error e => .error (fatalTrace "Failed to connect to AMQP broker" e)
  | .ok _ =>
    match b.openChannel with
    | .error e => .error ([Event.connOpened] ++ fatalTrace "Failed to open a channel" e)
    | .ok _ =>
      if createQueue then
        match b.declareQueue with
        | .error e =>
          .error ([Event.connOpened, Event.chanOpened] ++
            fatalTrace "Failed to declare queue" e)
        | .ok _ => .ok (openTrace true)
      else .ok (openTrace false)

/-- The scanner loop of `publish` (lines 62–78): publish each line; on
failure, log the diagnostic and exit 1 without echoing the failing line;
on success, echo the line and continue.  The `Bool` is `true` when the
process exited inside the loop. -/
def publishLinesT (pub : String → Except String Unit) : List String → List Event × Bool
  | [] => ([], false)
  | line :: rest =>
    match pub line with
    | .error e =>
      (Event.published line :: fatalTrace "Failed to publish a message" e, true)
    | .ok _ =>
      let p := publishLinesT pub rest
      (Event.published line :: Event.echoed line :: p.1, p.2)

/-- The whole `publish` command (lines 44–81) as an event trace. -/
def publishRun (b : Broker) (createQueue : Bool) (input : List String) : List Event :=
  match prepareT b createQueue with
  | .error t => t
  | .ok t0 =>
    let p := publishLinesT b.pub input
    if p.2 then t0 ++ p.1
    else
      match b.stdinErr with
      | some e => t0 ++ p.1 ++ fatalTrace "Failed to read from stdin" e
      | none => t0 ++ p.1 ++ [Event.chanClosed, Event.connClosed, Event.exited 0]

/-- The lines written to standard output along a trace. -/
def outputOf (t : List Event) : List String :=
  t.filterMap fun e => match e with | .echoed line => some line | _ => none

/-- Result of running the `select` loop of `consumeMessages`. -/
structure LoopResult where
  outputs : List String
  ledger : List Delivery
  stopped : Bool
  consumed : Nat
  deriving DecidableEq, Repr

/-- The `select` loop of `consumeMessages` (lines 134–153) over an
explicit list of iteration outcomes: `some d` means the delivery channel
won the race that iteration, `none` means `time.After(timeout)` fired
first (no delivery arrived for one whole timeout interval).  A delivery is
appended to the Ledger unless auto-ack is on, and its body is printed
either way; a timeout stops the loop (send on `forever`, then `return`)
only when non-blocking mode is set, and is otherwise ignored. -/
def consumeLoop (autoack nonBlocking : Bool) (ledger : List Delivery) :
    List (Option Delivery) → LoopResult
  | [] => ⟨[], ledger, false, 0⟩
  | none :: rest =>
    if nonBlocking then ⟨[], ledger, true, 1⟩
    else
      let r := consumeLoop autoack nonBlocking ledger rest
      ⟨r.outputs, r.ledger, r.stopped, r.consumed + 1⟩
  | some d :: rest =>
    let newLedger := if autoack then ledger else ledger ++ [d]
    let r := consumeLoop autoack nonBlocking newLedger rest
    ⟨d.body :: r.outputs, r.ledger, r.stopped, r.consumed + 1⟩

/-- The `consume` command (lines 83–162) as an event trace of the main
task and the consume-loop task: prepare, register the consumer
(`channel.Consume`, guarded by `failOnError`), then run the loop.  When
the loop stops (non-blocking timeout), `consumeMessages` sends on
`forever` and returns; `consume` then returns, its defers close the
channel and the connection, and the process exits 0.  Otherwise
`<-forever` still blocks and the trace ends with the session running. -/
def consumeRun (b : Broker) (createQueue autoack nonBlocking : Bool)
    (evs : List (Option Delivery)) : List Event :=
  match prepareT b createQueue with
  | .error t => t
  | .ok t0 =>
    match b.consumeReg with
    | .error e => t0 ++ fatalTrace "Failed to register consumer" e
    | .ok _ =>
      let r := consumeLoop autoack nonBlocking initialUnackedMessages evs
      if r.stopped then
        t0 ++ r.outputs.map Event.echoed ++
          [Event.chanClosed, Event.connClosed, Event.exited 0]
      else t0 ++ r.outputs.map Event.echoed

/-- Default of the `timeout` flag (line 201): 1 (second). -/
def defaultTimeoutSeconds : Nat := 1

/-- A broker on which every call succeeds and stdin reaches a clean EOF. -/
def brokerAllOk : Broker :=
  ⟨.ok (), .ok (), .ok (), fun _ => .ok (), .ok (), none⟩

/-- A broker on which publishing the line `"bad"` fails and everything
else succeeds. -/
def brokerFailsBad : Broker :=
  ⟨.ok (), .ok (), .ok (),
    fun l => if l = "bad" then .error "broken pipe" else .ok (), .ok (), none⟩

/-! ### Lemmas about the publish trace -/

/-- The `published`/`echoed` event pairs of a run of successful publishes:
each line's echo directly follows its successful publish. -/
def pubEchoTrace : List String → List Event
  | [] => []
  | l :: rest => Event.published l :: Event.echoed l :: pubEchoTrace rest

theorem prepareT_ok (b : Broker) (cq : Bool)
    (hd : b.dial = .ok ()) (hc : b.openChannel = .ok ())
    (hq : cq = true → b.declareQueue = .ok ()) :
    prepareT b cq = .ok (openTrace cq) := by
  cases cq with
  | true => simp [prepareT, hd, hc, hq rfl]
  | false => simp [prepareT, hd, hc]

theorem publishLinesT_ok (pub : String → Except String Unit) (input : List String)
    (h : ∀ l ∈ input, pub l = .ok ()) :
    publishLinesT pub input = (pubEchoTrace input, false) := by
  induction input with
  | nil => rfl
  | cons l rest ih =>
    have hl : pub l = .ok () := h l (by simp)
    have hrest := ih fun l' hl' => h l' (by simp [hl'])
    simp [publishLinesT, hl, hrest, pubEchoTrace]

theorem publishLinesT_fail (pub : String → Except String Unit)
    (pre : List String) (bad : String) (tail : List String) (e : String)
    (hpre : ∀ l ∈ pre, pub l = .ok ()) (hbad : pub bad = .error e) :
    publishLinesT pub (pre ++ bad :: tail) =
      (pubEchoTrace pre ++
        Event.published bad :: fatalTrace "Failed to publish a message" e, true) := by
  induction pre with
  | nil => simp [publishLinesT, hbad, pubEchoTrace]
  | cons l rest ih =>
    have hl : pub l = .ok () := hpre l (by simp)
    have hrest := ih fun l' hl' => hpre l' (by simp [hl'])
    simp [publishLinesT, hl, hrest, pubEchoTrace]

theorem outputOf_append (s t : List Event) :
    outputOf (s ++ t) = outputOf s ++ outputOf t := by
  simp [outputOf, List.filterMap_append]

theorem outputOf_openTrace (cq : Bool) : outputOf (openTrace cq) = [] := by
  cases cq <;> rfl

theorem outputOf_pubEchoTrace (input : List String) :
    outputOf (pubEchoTrace input) = input := by
  induction input with
  | nil => rfl
  | cons l rest ih => simp [pubEchoTrace, outputOf, List.filterMap] at ih ⊢; exact ih

theorem outputOf_fatalTrace (m e : String) : outputOf (fatalTrace m e) = [] := rfl

/-! ### Claim theorems: the publish command -/

/-- **C5.** For every sequence of input lines, assuming every publish call
succeeds, the output of the publish command equals the input exactly: the
trace is the open events, then for each line in input order its publish
immediately followed by its echo, then the normal shutdown — and the
echoed lines are precisely the input; end-of-stream terminates the
publisher normally (exit code 0), not as an error. -/
theorem publish_echo (b : Broker) (cq : Bool) (input : List String)
    (hd : b.dial = .ok ()) (hc : b.openChannel = .ok ())
    (hq : cq = true → b.declareQueue = .ok ())
    (hpub : ∀ l ∈ input, b.pub l = .ok ()) (hin : b.stdinErr = none) :
    publishRun b cq input =
      openTrace cq ++ pubEchoTrace input ++
        [Event.chanClosed, Event.connClosed, Event.exited 0] ∧
    outputOf (publishRun b cq input) = input := by
  have hlines := publishLinesT_ok b.pub input hpub
  have hprep := prepareT_ok b cq hd hc hq
  have htr : publishRun b cq input =
      openTrace cq ++ pubEchoTrace input ++
        [Event.chanClosed, Event.connClosed, Event.exited 0] := by
    unfold publishRun
    rw [hprep]
    simp [hlines, hin]
  refine ⟨htr, ?_⟩
  rw [htr, outputOf_append, outputOf_append, outputOf_openTrace,
    outputOf_pubEchoTrace]
  simp [outputOf]

/-- Witness for C5: with an all-ok broker and input `["a", "b"]`, the
output is `["a", "b"]` and the run ends with the clean shutdown. -/
theorem publish_echo_witness :
    publishRun brokerAllOk true ["a", "b"] =
      openTrace true ++ pubEchoTrace ["a", "b"] ++
        [Event.chanClosed, Event.connClosed, Event.exited 0] ∧
    outputOf (publishRun brokerAllOk true ["a", "b"]) = ["a", "b"] :=
  publish_echo brokerAllOk true ["a", "b"] rfl rfl (fun _ => rfl)
    (fun _ _ => rfl) rfl

/-- **C6.** If a publish call fails, the process terminates at once with
the diagnostic and exit code 1: the trace stops right after the failed
publish — the failing line is not echoed, no later line is processed, and
no retry or recovery happens. -/
theorem publish_failure_fatal (b : Broker) (cq : Bool) (pre : List String)
    (bad : String) (tail : List String) (e : String)
    (hd : b.dial = .ok ()) (hc : b.openChannel = .ok ())
    (hq : cq = true → b.declareQueue = .ok ())
    (hpre : ∀ l ∈ pre, b.pub l = .ok ()) (hbad : b.pub bad = .error e) :
    publishRun b cq (pre ++ bad :: tail) =
      openTrace cq ++ pubEchoTrace pre ++
        Event.published bad :: fatalTrace "Failed to publish a message" e ∧
    outputOf (publishRun b cq (pre ++ bad :: tail)) = pre := by
  have hlines := publishLinesT_fail b.pub pre bad tail e hpre hbad
  have hprep := prepareT_ok b cq hd hc hq
  have htr : publishRun b cq (pre ++ bad :: tail) =
      openTrace cq ++ pubEchoTrace pre ++
        Event.published bad :: fatalTrace "Failed to publish a message" e := by
    unfold publishRun
    rw [hprep]
    simp [hlines]
  refine ⟨htr, ?_⟩
  rw [htr, outputOf_append, outputOf_append, outputOf_openTrace,
    outputOf_pubEchoTrace]
  simp [outputOf, fatalTrace]

/-- Witness for C6: publishing `["a", "bad", "c"]` on a broker that fails
on `"bad"` echoes only `"a"`, logs the diagnostic and exits 1. -/
theorem publish_failure_fatal_witness :
    publishRun brokerFailsBad true ["a", "bad", "c"] =
      openTrace true ++ pubEchoTrace ["a"] ++
        Event.published "bad" ::
          fatalTrace "Failed to publish a message" "broken pipe" ∧
    outputOf (publishRun brokerFailsBad true ["a", "bad", "c"]) = ["a"] :=
  publish_failure_fatal brokerFailsBad true ["a"] "bad" ["c"] "broken pipe"
    rfl rfl (fun _ => rfl)
    (by intro l hl; rw [List.mem_singleton] at hl; subst hl; rfl) rfl

/-! ### The consume loop and the idle timeout -/

/-- The deliveries among a list of loop-iteration outcomes. -/
def deliveredOf : List (Option Delivery) → List Delivery
  | [] => []
  | none :: rest => deliveredOf rest
  | some d :: rest => d :: deliveredOf rest

theorem consumeLoop_nonblocking_stop (autoack : Bool) (pre : List Delivery) :
    ∀ (ledger : List Delivery) (tail : List (Option Delivery)),
      consumeLoop autoack true ledger (pre.map some ++ none :: tail) =
        ⟨pre.map Delivery.body, if autoack then ledger else ledger ++ pre,
          true, pre.length + 1⟩ := by
  induction pre with
  | nil =>
    intro ledger tail
    cases autoack <;> simp [consumeLoop]
  | cons d pre ih =>
    intro ledger tail
    cases autoack with
    | true => simp [consumeLoop, ih]
    | false => simp [consumeLoop, ih, List.append_assoc]

theorem consumeLoop_blocking (autoack : Bool) (evs : List (Option Delivery)) :
    ∀ ledger : List Delivery,
      (consumeLoop autoack false ledger evs).stopped = false ∧
      (consumeLoop autoack false ledger evs).consumed = evs.length ∧
      (consumeLoop autoack false ledger evs).outputs =
        (deliveredOf evs).map Delivery.body := by
  induction evs with
  | nil => intro ledger; simp [consumeLoop, deliveredOf]
  | cons ev rest ih =>
    intro ledger
    cases ev with
    | none =>
      obtain ⟨h1, h2, h3⟩ := ih ledger
      simp [consumeLoop, deliveredOf, h1, h2, h3]
    | some d =>
      obtain ⟨h1, h2, h3⟩ := ih (if autoack then ledger else ledger ++ [d])
      simp [consumeLoop, deliveredOf, h1, h2, h3]

/-- **C8.** The `timeout` flag defaults to 1 (second).  With non-blocking
mode enabled, the first iteration in which the idle timeout elapses before
a delivery stops the loop on the spot: the deliveries received before it
are all emitted (and, without auto-ack, inserted), nothing after the
timeout is processed — the loop has stopped within that one timeout
interval of the last delivery (or of startup if none arrived) — and the
session then closes the channel and connection and exits 0.  With
non-blocking mode disabled, elapsed timeouts are ignored: the loop never
stops, processes every outcome, and still emits every delivery. -/
theorem consume_timeout_shutdown :
    defaultTimeoutSeconds = 1 ∧
    (∀ (autoack : Bool) (ledger pre : List Delivery) (tail : List (Option Delivery)),
      consumeLoop autoack true ledger (pre.map some ++ none :: tail) =
        ⟨pre.map Delivery.body, if autoack then ledger else ledger ++ pre,
          true, pre.length + 1⟩) ∧
    (∀ (autoack : Bool) (ledger : List Delivery) (evs : List (Option Delivery)),
      (consumeLoop autoack false ledger evs).stopped = false ∧
      (consumeLoop autoack false ledger evs).consumed = evs.length ∧
      (consumeLoop autoack false ledger evs).outputs =
        (deliveredOf evs).map Delivery.body) ∧
    (∀ (b : Broker) (cq autoack : Bool) (pre : List Delivery)
        (tail : List (Option Delivery)),
      b.dial = .ok () → b.openChannel = .ok () →
      (cq = true → b.declareQueue = .ok ()) → b.consumeReg = .ok () →
      consumeRun b cq autoack true (pre.map some ++ none :: tail) =
        openTrace cq ++ (pre.map Delivery.body).map Event.echoed ++
          [Event.chanClosed, Event.connClosed, Event.exited 0]) := by
  refine ⟨rfl, fun autoack ledger pre tail => consumeLoop_nonblocking_stop autoack pre ledger tail,
    fun autoack ledger evs => consumeLoop_blocking autoack evs ledger, ?_⟩
  intro b cq autoack pre tail hd hc hq hreg
  unfold consumeRun
  rw [prepareT_ok b cq hd hc hq]
  simp [hreg, consumeLoop_nonblocking_stop autoack pre initialUnackedMessages tail]

/-- Witness for C8: an all-ok broker in non-blocking mode that receives
one delivery with body `"m"` and then a timeout emits `"m"`, closes the
channel and the connection and exits 0. -/
theorem consume_timeout_shutdown_witness :
    consumeRun brokerAllOk true false true ([⟨1, "m"⟩].map some ++ none :: []) =
      openTrace true ++ ([⟨(1 : Nat), "m"⟩].map Delivery.body).map Event.echoed ++
        [Event.chanClosed, Event.connClosed, Event.exited 0] :=
  consume_timeout_shutdown.2.2.2 brokerAllOk true false [⟨1, "m"⟩] []
    rfl rfl (fun _ => rfl) rfl

/-! ### Which traces contain the close events

`os.Exit` (reached through `log.Fatalf` in `failOnError`) does not run
deferred functions, so no fatal trace contains a close event; the closes
appear exactly on normal returns. -/

theorem openTrace_no_close_exit (cq : Bool) :
    Event.chanClosed ∉ openTrace cq ∧ Event.connClosed ∉ openTrace cq ∧
    ∀ c, Event.exited c ∉ openTrace cq := by
  cases cq <;> simp [openTrace]

theorem fatalTrace_no_close (m e : String) :
    Event.chanClosed ∉ fatalTrace m e ∧ Event.connClosed ∉ fatalTrace m e := by
  simp [fatalTrace]

theorem prepareT_error_shape (b : Broker) (cq : Bool) (t : List Event)
    (h : prepareT b cq = .error t) :
    Event.chanClosed ∉ t ∧ Event.connClosed ∉ t ∧ Event.exited 1 ∈ t := by
  unfold prepareT at h
  cases hd : b.dial with
  | error e =>
    simp [hd] at h
    subst h
    simp [fatalTrace]
  | ok u =>
    cases hc : b.openChannel with
    | error e =>
      simp [hd, hc] at h
      subst h
      simp [fatalTrace]
    | ok v =>
      cases cq with
      | true =>
        cases hq : b.declareQueue with
        | error e =>
          simp [hd, hc, hq] at h
          subst h
          simp [fatalTrace]
        | ok w => simp [hd, hc, hq] at h
      | false => simp [hd, hc] at h

theorem prepareT_ok_shape (b : Broker) (cq : Bool) (t0 : List Event)
    (h : prepareT b cq = .ok t0) : t0 = openTrace cq := by
  unfold prepareT at h
  cases hd : b.dial with
  | error e => simp [hd] at h
  | ok u =>
    cases hc : b.openChannel with
    | error e => simp [hd, hc] at h
    | ok v =>
      cases cq with
      | true =>
        cases hq : b.declareQueue with
        | error e => simp [hd, hc, hq] at h
        | ok w => simp [hd, hc, hq] at h; exact h.symm
      | false => simp [hd, hc] at h; exact h.symm

theorem publishLinesT_no_close (pub : String → Except String Unit)
    (input : List String) :
    Event.chanClosed ∉ (publishLinesT pub input).1 ∧
    Event.connClosed ∉ (publishLinesT pub input).1 := by
  induction input with
  | nil => simp [publishLinesT]
  | cons l rest ih =>
    cases hp : pub l with
    | error e => simp [publishLinesT, hp, fatalTrace]
    | ok u =>
      have := ih
      simp [publishLinesT, hp] at this ⊢
      exact this

theorem publishLinesT_false_no_exit (pub : String → Except String Unit)
    (input : List String) (h : (publishLinesT pub input).2 = false) :
    ∀ c, Event.exited c ∉ (publishLinesT pub input).1 := by
  induction input with
  | nil => intro c; simp [publishLinesT]
  | cons l rest ih =>
    intro c
    cases hp : pub l with
    | error e => simp [publishLinesT, hp] at h
    | ok u =>
      have hrest : (publishLinesT pub rest).2 = false := by
        simpa [publishLinesT, hp] using h
      have := ih hrest c
      simp [publishLinesT, hp]
      exact this

theorem echoed_map_no_close_exit (ls : List String) :
    Event.chanClosed ∉ ls.map Event.echoed ∧
    Event.connClosed ∉ ls.map Event.echoed ∧
    ∀ c, Event.exited c ∉ ls.map Event.echoed := by
  refine ⟨?_, ?_, fun c => ?_⟩ <;>
    · intro h
      obtain ⟨l, _, hl⟩ := List.mem_map.mp h
      exact Event.noConfusion hl

/-- **C7** (counterexample).  The claim says the opened connection and
channel are released on EVERY exit path, error paths included.  On the
concrete run `publish` with input `["bad"]` against a broker whose publish
fails, the connection and channel are opened and the process terminates
with exit code 1, yet no close event ever occurs: `log.Fatalf` calls
`os.Exit`, which skips the deferred `Close` calls. -/
theorem publish_failure_skips_close :
    Event.connOpened ∈ publishRun brokerFailsBad true ["bad"] ∧
    Event.chanOpened ∈ publishRun brokerFailsBad true ["bad"] ∧
    Event.exited 1 ∈ publishRun brokerFailsBad true ["bad"] ∧
    Event.chanClosed ∉ publishRun brokerFailsBad true ["bad"] ∧
    Event.connClosed ∉ publishRun brokerFailsBad true ["bad"] := by
  decide

/-- **C7 amended.**  The deferred closes release the channel and then the
connection before process exit on every NORMAL exit path of `publish` and
`consume` (clean EOF on input; non-blocking shutdown of the consume
loop).  On every fatal exit path — connection, channel, declaration,
publish, consume-registration, or input-read failure — `failOnError`'s
`log.Fatalf` exits the process immediately and the deferred closes are
skipped, so a trace that exits with code 1 contains no close event at
all: the resources are left to be reclaimed by the operating system. -/
theorem resource_release_paths :
    (∀ (b : Broker) (cq : Bool) (input : List String),
      b.dial = .ok () → b.openChannel = .ok () →
      (cq = true → b.declareQueue = .ok ()) →
      (∀ l ∈ input, b.pub l = .ok ()) → b.stdinErr = none →
      ∃ t, publishRun b cq input =
        t ++ [Event.chanClosed, Event.connClosed, Event.exited 0]) ∧
    (∀ (b : Broker) (cq : Bool) (input : List String),
      Event.exited 1 ∈ publishRun b cq input →
      Event.chanClosed ∉ publishRun b cq input ∧
      Event.connClosed ∉ publishRun b cq input) ∧
    (∀ (b : Broker) (cq autoack nb : Bool) (evs : List (Option Delivery)),
      b.dial = .ok () → b.openChannel = .ok () →
      (cq = true → b.declareQueue = .ok ()) → b.consumeReg = .ok () →
      (consumeLoop autoack nb initialUnackedMessages evs).stopped = true →
      ∃ t, consumeRun b cq autoack nb evs =
        t ++ [Event.chanClosed, Event.connClosed, Event.exited 0]) ∧
    (∀ (b : Broker) (cq autoack nb : Bool) (evs : List (Option Delivery)),
      Event.exited 1 ∈ consumeRun b cq autoack nb evs →
      Event.chanClosed ∉ consumeRun b cq autoack nb evs ∧
      Event.connClosed ∉ consumeRun b cq autoack nb evs) := by
  refine ⟨?_, ?_, ?_, ?_⟩
  · intro b cq input hd hc hq hpub hin
    refine ⟨openTrace cq ++ pubEchoTrace input, ?_⟩
    unfold publishRun
    rw [prepareT_ok b cq hd hc hq]
    simp [publishLinesT_ok b.pub input hpub, hin]
  · intro b cq input hex
    cases hp : prepareT b cq with
    | error t =>
      have htr : publishRun b cq input = t := by
        unfold publishRun; rw [hp]
      rw [htr]
      obtain ⟨h1, h2, _⟩ := prepareT_error_shape b cq t hp
      exact ⟨h1, h2⟩
    | ok t0 =>
      have ht0 := prepareT_ok_shape b cq t0 hp
      subst ht0
      obtain ⟨hoc1, hoc2, hox⟩ := openTrace_no_close_exit cq
      obtain ⟨hpc1, hpc2⟩ := publishLinesT_no_close b.pub input
      cases hflag : (publishLinesT b.pub input).2 with
      | true =>
        have htr : publishRun b cq input =
            openTrace cq ++ (publishLinesT b.pub input).1 := by
          unfold publishRun; rw [hp]; simp [hflag]
        rw [htr]
        constructor
        · intro hmem
          rcases List.mem_append.mp hmem with h | h
          · exact hoc1 h
          · exact hpc1 h
        · intro hmem
          rcases List.mem_append.mp hmem with h | h
          · exact hoc2 h
          · exact hpc2 h
      | false =>
        cases hin : b.stdinErr with
        | some e =>
          have htr : publishRun b cq input =
              openTrace cq ++ (publishLinesT b.pub input).1 ++
                fatalTrace "Failed to read from stdin" e := by
            unfold publishRun; rw [hp]; simp [hflag, hin]
          rw [htr]
          obtain ⟨hf1, hf2⟩ := fatalTrace_no_close "Failed to read from stdin" e
          constructor
          · intro hmem
            rcases List.mem_append.mp hmem with h | h
            · rcases List.mem_append.mp h with h2 | h2
              · exact hoc1 h2
              · exact hpc1 h2
            · exact hf1 h
          · intro hmem
            rcases List.mem_append.mp hmem with h | h
            · rcases List.mem_append.mp h with h2 | h2
              · exact hoc2 h2
              · exact hpc2 h2
            · exact hf2 h
        | none =>
          have htr : publishRun b cq input =
              openTrace cq ++ (publishLinesT b.pub input).1 ++
                [Event.chanClosed, Event.connClosed, Event.exited 0] := by
            unfold publishRun; rw [hp]; simp [hflag, hin]
          rw [htr] at hex
          have hpx := publishLinesT_false_no_exit b.pub input hflag 1
          exfalso
          rcases List.mem_append.mp hex with h | h
          · rcases List.mem_append.mp h with h2 | h2
            · exact hox 1 h2
            · exact hpx h2
          · simp at h
  · intro b cq autoack nb evs hd hc hq hreg hstop
    refine ⟨openTrace cq ++
      ((consumeLoop autoack nb initialUnackedMessages evs).outputs).map Event.echoed, ?_⟩
    unfold consumeRun
    rw [prepareT_ok b cq hd hc hq]
    simp [hreg, hstop]
  · intro b cq autoack nb evs hex
    cases hp : prepareT b cq with
    | error t =>
      have htr : consumeRun b cq autoack nb evs = t := by
        unfold consumeRun; rw [hp]
      rw [htr]
      obtain ⟨h1, h2, _⟩ := prepareT_error_shape b cq t hp
      exact ⟨h1, h2⟩
    | ok t0 =>
      have ht0 := prepareT_ok_shape b cq t0 hp
      subst ht0
      obtain ⟨hoc1, hoc2, hox⟩ := openTrace_no_close_exit cq
      obtain ⟨hec1, hec2, hex'⟩ := echoed_map_no_close_exit
        (consumeLoop autoack nb initialUnackedMessages evs).outputs
      cases hreg : b.consumeReg with
      | error e =>
        have htr : consumeRun b cq autoack nb evs =
            openTrace cq ++ fatalTrace "Failed to register consumer" e := by
          unfold consumeRun; rw [hp]; simp [hreg]
        rw [htr]
        obtain ⟨hf1, hf2⟩ := fatalTrace_no_close "Failed to register consumer" e
        constructor
        · intro hmem
          rcases List.mem_append.mp hmem with h | h
          · exact hoc1 h
          · exact hf1 h
        · intro hmem
          rcases List.mem_append.mp hmem with h | h
          · exact hoc2 h
          · exact hf2 h
      | ok u =>
        cases hstop : (consumeLoop autoack nb initialUnackedMessages evs).stopped with
        | true =>
          have htr : consumeRun b cq autoack nb evs =
              openTrace cq ++
                ((consumeLoop autoack nb initialUnackedMessages evs).outputs).map
                  Event.echoed ++
                [Event.chanClosed, Event.connClosed, Event.exited 0] := by
            unfold consumeRun; rw [hp]; simp [hreg, hstop]
          rw [htr] at hex
          exfalso
          rcases List.mem_append.mp hex with h | h
          · rcases List.mem_append.mp h with h2 | h2
            · exact hox 1 h2
            · exact hex' 1 h2
          · simp at h
        | false =>
          have htr : consumeRun b cq autoack nb evs =
              openTrace cq ++
                ((consumeLoop autoack nb initialUnackedMessages evs).outputs).map
                  Event.echoed := by
            unfold consumeRun; rw [hp]; simp [hreg, hstop]
          rw [htr] at hex
          exfalso
          rcases List.mem_append.mp hex with h | h
          · exact hox 1 h
          · exact hex' 1 h

/-- Witness for the amended C7: on an all-ok broker with empty input,
`publish` closes channel and connection before exiting 0; on the broker
whose publish of `"bad"` fails, the trace exits 1 and contains neither
close event. -/
theorem resource_release_paths_witness :
    (∃ t, publishRun brokerAllOk true [] =
      t ++ [Event.chanClosed, Event.connClosed, Event.exited 0]) ∧
    (Event.chanClosed ∉ publishRun brokerFailsBad true ["bad"] ∧
      Event.connClosed ∉ publishRun brokerFailsBad true ["bad"]) :=
  ⟨resource_release_paths.1 brokerAllOk true [] rfl rfl (fun _ => rfl)
      (fun l hl => absurd hl (List.not_mem_nil l)) rfl,
   resource_release_paths.2.1 brokerFailsBad true ["bad"] (by decide)⟩

end Pipecat
